import Mathlib

/-!
Verification of the offline-caching service worker of
battery-stats-pwa-next (`public/sw.js`).

The worker is embedded shallowly:

* a `Response` is a snapshot of status, headers and body;
* a `Request` carries its method, its serialized URL (which is also the
  cache key the Cache API uses for a GET request) and the `origin` and
  `hostname` components that `new URL(request.url)` exposes;
* a cache generation (`Cache`) is an association list from keys to
  response snapshots, and the browser's `CacheStorage` is an association
  list from generation names to generations, kept in creation order;
* the network is a function `Request → Option Response`: `some r` means
  the fetch promise resolved with response `r` (whatever its status),
  `none` means the fetch rejected (offline, DNS failure, timeout, ...);
* the fetch listener becomes a function from a pre-state to the outcome
  delivered to the page together with the post-state of the cache
  storage, the list of network calls issued, and the list of cache
  lookups performed.

Relative cache keys such as "/" are resolved by the browser against the
worker's own location before they are compared; since `cache.addAll` and
`caches.match` apply the same resolution, the resolved root-document URL
is represented here by the literal string "/" that the source uses.
-/

/-- The constant `CACHE_VERSION = "garden-battery-v1"` — the name of the
current cache generation. -/
def CACHE_VERSION : String := "garden-battery-v1"

/-- The constant `APP_SHELL` — the shell manifest fetched at install. -/
def APP_SHELL : List String :=
  ["/", "/history", "/manifest.webmanifest", "/favicon.ico", "/assets/sun.gif"]

/-- A captured response snapshot: status, headers, body. -/
structure Response where
  status : Nat
  headers : List (String × String)
  body : String
  deriving DecidableEq, Repr

/-- A request as the fetch listener sees it: its method, its serialized
URL (the cache key), and the `origin` and `hostname` components of
`new URL(request.url)`. -/
structure Request where
  method : String
  url : String
  origin : String
  hostname : String
  deriving DecidableEq, Repr

/-- A cache generation: entries mapping a request key to a stored
response snapshot. -/
abbrev Cache := List (String × Response)

/-- The browser cache storage: named generations in creation order. -/
abbrev CacheStorage := List (String × Cache)

/-- Model of `cache.match(key)` on a single generation: the stored entry
for the key, if any. -/
def cacheLookup (c : Cache) (k : String) : Option Response :=
  (c.find? (fun e => e.1 == k)).map Prod.snd

/-- Model of `caches.match(key)` on the whole storage: generations are
searched in creation order and the first entry found anywhere is
returned. -/
def cachesMatch (cs : CacheStorage) (k : String) : Option Response :=
  match cs with
  | [] => none
  | g :: rest =>
    match cacheLookup g.2 k with
    | some r => some r
    | none => cachesMatch rest k

/-- Model of `cache.put(key, response)`: any previous entry for the key
is replaced by the new snapshot, written whole. -/
def cachePut (c : Cache) (k : String) (r : Response) : Cache :=
  c.filter (fun e => e.1 != k) ++ [(k, r)]

/-- Model of `caches.open(name)`: returns the storage, creating an empty
generation of that name if none exists yet. -/
def cachesOpen (cs : CacheStorage) (name : String) : CacheStorage :=
  if cs.any (fun g => g.1 == name) then cs else cs ++ [(name, [])]

/-- Store a snapshot into the (first) generation of the given name. -/
def putInto (cs : CacheStorage) (name k : String) (r : Response) : CacheStorage :=
  match cs with
  | [] => []
  | g :: rest =>
    if g.1 == name then (g.1, cachePut g.2 k r) :: rest else g :: putInto rest name k r

/-- Model of `caches.open(name).then(cache => cache.put(key, response))`. -/
def cachesOpenPut (cs : CacheStorage) (name k : String) (r : Response) : CacheStorage :=
  putInto (cachesOpen cs name) name k r

/-- Model of `caches.keys()`: the names of the existing generations. -/
def cachesKeys (cs : CacheStorage) : List String :=
  cs.map Prod.fst

/-- Model of `caches.delete(name)`: removes the generation of that name. -/
def cachesDelete (cs : CacheStorage) (name : String) : CacheStorage :=
  cs.filter (fun g => g.1 != name)

/-- Lookup restricted to the (first) generation of a given name. -/
def genLookup (cs : CacheStorage) (name k : String) : Option Response :=
  match cs.find? (fun g => g.1 == name) with
  | some g => cacheLookup g.2 k
  | none => none

/-- Lookup restricted to the current generation only — the lookup the
spec's Fallback Resolver describes ("search only the current
generation"). -/
def currentOnlyMatch (cs : CacheStorage) (k : String) : Option Response :=
  genLookup cs CACHE_VERSION k

/-- What handling a fetch event delivers to the page: `passthrough`
when the listener returns without calling `respondWith` (the browser
performs the request itself with no caching involvement), `response r`
when `respondWith` settles with response `r`, and `failure` when the
promise passed to `respondWith` rejects or resolves with `undefined`
(a missing cache entry), which the page observes as a failed fetch. -/
inductive FetchOutcome where
  | passthrough
  | response (r : Response)
  | failure
  deriving DecidableEq, Repr

/-- The full observable effect of one run of the fetch listener. -/
structure FetchResult where
  outcome : FetchOutcome
  caches : CacheStorage
  networkCalls : List Request
  cacheLookups : List String
  deriving DecidableEq, Repr

/-- The fetch listener of `public/sw.js`.  `net` is the network
(`some` = the fetch promise resolved, `none` = it rejected) and
`selfOrigin` is `self.location.origin`.

Control flow mirrors the source: non-GET requests return without
`respondWith`; same-origin GETs are served cache-first via
`caches.match(request)` with a network refill on miss and a
`caches.match("/")` fallback on network failure; GETs to the two
allow-listed hostnames are served network-first with the successful
response cloned into the current generation and `caches.match(request)`
as the failure fallback; every other request falls off the end of the
listener untouched. -/
def handleFetch (net : Request → Option Response) (cs : CacheStorage)
    (req : Request) (selfOrigin : String) : FetchResult :=
  if req.method != "GET" then
    ⟨.passthrough, cs, [], []⟩
  else if req.origin == selfOrigin then
    match cachesMatch cs req.url with
    | some cached => ⟨.response cached, cs, [], [req.url]⟩
    | none =>
      match net req with
      | some resp =>
        ⟨.response resp, cachesOpenPut cs CACHE_VERSION req.url resp, [req], [req.url]⟩
      | none =>
        match cachesMatch cs "/" with
        | some root => ⟨.response root, cs, [req], [req.url, "/"]⟩
        | none => ⟨.failure, cs, [req], [req.url, "/"]⟩
  else if req.hostname == "batteryapi.liese.space" || req.hostname == "thingspeak.com" then
    match net req with
    | some resp =>
      ⟨.response resp, cachesOpenPut cs CACHE_VERSION req.url resp, [req], []⟩
    | none =>
      match cachesMatch cs req.url with
      | some cached => ⟨.response cached, cs, [req], [req.url]⟩
      | none => ⟨.failure, cs, [req], [req.url]⟩
  else
    ⟨.passthrough, cs, [], []⟩

/-- Model of `response.ok`: status in the 2xx range.  `cache.addAll`
rejects on any response that is not ok. -/
def responseOk (r : Response) : Bool :=
  200 ≤ r.status && r.status < 300

/-- Model of `cache.addAll(urls)`: fetch every url of the manifest and
store each successful, ok snapshot verbatim; reject (`none`) as soon as
a fetch fails or yields a non-ok response. -/
def addAll (net : String → Option Response) (c : Cache) : List String → Option Cache
  | [] => some c
  | u :: rest =>
    match net u with
    | some r => if responseOk r then addAll net (cachePut c u r) rest else none
    | none => none

/-- Replace the contents of the (first) generation of the given name. -/
def setGen : CacheStorage → String → Cache → CacheStorage
  | [], _, _ => []
  | g :: rest, name, c =>
    if g.1 == name then (g.1, c) :: rest else g :: setGen rest name c

/-- The install listener's cache effect:
`caches.open(CACHE_VERSION).then(cache => cache.addAll(APP_SHELL))`.
`none` means the population rejected and the install failed. -/
def installCaches (net : String → Option Response) (cs : CacheStorage) :
    Option CacheStorage :=
  match (cachesOpen cs CACHE_VERSION).find? (fun g => g.1 == CACHE_VERSION) with
  | some g =>
    (addAll net g.2 APP_SHELL).map (setGen (cachesOpen cs CACHE_VERSION) CACHE_VERSION)
  | none => none

/-- The activate listener's cache effect: delete every generation whose
name is not `CACHE_VERSION`. -/
def activateCaches (cs : CacheStorage) : CacheStorage :=
  ((cachesKeys cs).filter (fun k => k != CACHE_VERSION)).foldl cachesDelete cs

/-- Observable lifecycle actions of the install and activate
listeners. -/
inductive LifeAction where
  | skipWaiting
  | populateShell
  | claimClients
  | deleteGeneration (name : String)
  deriving DecidableEq, Repr

/-- Ordered action trace of the install listener.  The listener body is
synchronous: `event.waitUntil(...)` merely registers the asynchronous
open-and-addAll chain, and `self.skipWaiting()` is called before the
body returns, so the skip-waiting signal happens strictly before the
shell population settles in a later microtask. -/
def installTrace : List LifeAction :=
  [.skipWaiting, .populateShell]

/-- Ordered action trace of the activate listener: `event.waitUntil`
registers the key-enumeration-and-delete chain, then
`self.clients.claim()` runs synchronously, so the claim signal precedes
every generation deletion. -/
def activateTrace (cs : CacheStorage) : List LifeAction :=
  .claimClients :: ((cachesKeys cs).filter (fun k => k != CACHE_VERSION)).map .deleteGeneration

/-! ### Concrete fixtures used by the witnesses -/

/-- An origin for the deployed application, distinct from both
allow-listed remote hosts. -/
def appOrigin : String := "https://battery.example"

def shellResp : Response := ⟨200, [("content-type", "text/html")], "shell"⟩

def historyResp : Response := ⟨200, [("content-type", "text/html")], "history"⟩

def statsResp : Response := ⟨200, [("content-type", "application/json")], "soc 55"⟩

def statsResp2 : Response := ⟨200, [("content-type", "application/json")], "soc 71"⟩

def historyReq : Request :=
  ⟨"GET", "/history", appOrigin, "battery.example"⟩

def pageReq : Request :=
  ⟨"GET", "/settings", appOrigin, "battery.example"⟩

def statsReq : Request :=
  ⟨"GET", "https://batteryapi.liese.space/stats",
    "https://batteryapi.liese.space", "batteryapi.liese.space"⟩

def postReq : Request :=
  ⟨"POST", "/history", appOrigin, "battery.example"⟩

def foreignReq : Request :=
  ⟨"GET", "https://example.org/x", "https://example.org", "example.org"⟩

/-- A storage holding only the current generation, populated with the
root document and the history page. -/
def csShell : CacheStorage :=
  [(CACHE_VERSION, [("/", shellResp), ("/history", historyResp)])]

/-- A network on which only the stats endpoint answers. -/
def netStats : Request → Option Response :=
  fun r => if r == statsReq then some statsResp2 else none

/-- A fully unreachable network. -/
def netDown : Request → Option Response := fun _ => none

/-! ### Helper lemmas about the cache model -/

theorem cacheLookup_cachePut (c : Cache) (k : String) (r : Response) :
    cacheLookup (cachePut c k r) k = some r := by
  induction c with
  | nil => simp [cachePut, cacheLookup]
  | cons e rest ih =>
    by_cases he : e.1 == k
    · simp [cachePut, cacheLookup, he]
    · simp [cachePut, cacheLookup, he]

theorem cachesOpen_any (cs : CacheStorage) (name : String) :
    (cachesOpen cs name).any (fun g => g.1 == name) = true := by
  unfold cachesOpen
  split
  · assumption
  · simp

theorem genLookup_putInto (cs : CacheStorage) (name k : String) (r : Response)
    (h : cs.any (fun g => g.1 == name) = true) :
    genLookup (putInto cs name k r) name k = some r := by
  induction cs with
  | nil => simp at h
  | cons g rest ih =>
    by_cases hg : g.1 == name
    · simp [putInto, hg, genLookup, List.find?, cacheLookup_cachePut]
    · have h' : rest.any (fun g => g.1 == name) = true := by
        simpa [List.any_cons, hg] using h
      simpa [putInto, hg, genLookup, List.find?] using ih h'

theorem genLookup_cachesOpenPut (cs : CacheStorage) (name k : String) (r : Response) :
    genLookup (cachesOpenPut cs name k r) name k = some r :=
  genLookup_putInto _ _ _ _ (cachesOpen_any cs name)

/-! ### Claims about the fetch listener -/

/-- C1: for a GET request to the application's own origin that hits the
cache, the listener returns exactly the stored snapshot, issues no
network call, and leaves the cache storage unchanged. -/
theorem sw_sameOrigin_hit_serves_cache
    (net : Request → Option Response) (cs : CacheStorage) (req : Request)
    (selfOrigin : String) (r : Response)
    (hm : req.method = "GET") (ho : req.origin = selfOrigin)
    (hc : cachesMatch cs req.url = some r) :
    handleFetch net cs req selfOrigin = ⟨.response r, cs, [], [req.url]⟩ := by
  simp [handleFetch, hm, ho, hc]

theorem sw_sameOrigin_hit_serves_cache_witness :
    historyReq.method = "GET" ∧ historyReq.origin = appOrigin ∧
    cachesMatch csShell historyReq.url = some historyResp ∧
    handleFetch netDown csShell historyReq appOrigin =
      ⟨.response historyResp, csShell, [], [historyReq.url]⟩ :=
  ⟨rfl, rfl, by decide,
    sw_sameOrigin_hit_serves_cache netDown csShell historyReq appOrigin historyResp
      rfl rfl (by decide)⟩

/-- C2: for a GET request to an allow-listed remote host (a foreign
origin) whose network fetch resolves, the listener returns the network
response and stores a clone of it into the current generation under the
exact request key. -/
theorem sw_remote_networkFirst_stores_snapshot
    (net : Request → Option Response) (cs : CacheStorage) (req : Request)
    (selfOrigin : String) (resp : Response)
    (hm : req.method = "GET") (ho : req.origin ≠ selfOrigin)
    (hh : req.hostname = "batteryapi.liese.space" ∨ req.hostname = "thingspeak.com")
    (hn : net req = some resp) :
    handleFetch net cs req selfOrigin =
      ⟨.response resp, cachesOpenPut cs CACHE_VERSION req.url resp, [req], []⟩ ∧
    genLookup (handleFetch net cs req selfOrigin).caches CACHE_VERSION req.url = some resp := by
  have h1 : handleFetch net cs req selfOrigin =
      ⟨.response resp, cachesOpenPut cs CACHE_VERSION req.url resp, [req], []⟩ := by
    rcases hh with hh | hh <;> simp [handleFetch, hm, ho, hh, hn]
  exact ⟨h1, by rw [h1]; exact genLookup_cachesOpenPut cs CACHE_VERSION req.url resp⟩

theorem sw_remote_networkFirst_stores_snapshot_witness :
    statsReq.method = "GET" ∧ statsReq.origin ≠ appOrigin ∧
    (statsReq.hostname = "batteryapi.liese.space" ∨ statsReq.hostname = "thingspeak.com") ∧
    netStats statsReq = some statsResp2 ∧
    (handleFetch netStats csShell statsReq appOrigin =
      ⟨.response statsResp2, cachesOpenPut csShell CACHE_VERSION statsReq.url statsResp2,
        [statsReq], []⟩ ∧
     genLookup (handleFetch netStats csShell statsReq appOrigin).caches
       CACHE_VERSION statsReq.url = some statsResp2) :=
  ⟨rfl, by decide, Or.inl rfl, by decide,
    sw_remote_networkFirst_stores_snapshot netStats csShell statsReq appOrigin statsResp2
      rfl (by decide) (Or.inl rfl) (by decide)⟩

/-- C3: for a GET request to an allow-listed remote host whose network
fetch rejects, the listener returns the stored entry for the exact
request key when one exists and otherwise lets the failure propagate
(never substituting the root document); the cache storage is not
written. -/
theorem sw_remote_failure_fallback
    (net : Request → Option Response) (cs : CacheStorage) (req : Request)
    (selfOrigin : String)
    (hm : req.method = "GET") (ho : req.origin ≠ selfOrigin)
    (hh : req.hostname = "batteryapi.liese.space" ∨ req.hostname = "thingspeak.com")
    (hn : net req = none) :
    (handleFetch net cs req selfOrigin).caches = cs ∧
    (∀ r, cachesMatch cs req.url = some r →
      (handleFetch net cs req selfOrigin).outcome = .response r) ∧
    (cachesMatch cs req.url = none →
      (handleFetch net cs req selfOrigin).outcome = .failure) := by
  rcases hh with hh | hh <;>
    cases hcm : cachesMatch cs req.url <;>
      simp [handleFetch, hm, ho, hh, hn, hcm]

theorem sw_remote_failure_fallback_witness :
    statsReq.method = "GET" ∧ statsReq.origin ≠ appOrigin ∧
    (statsReq.hostname = "batteryapi.liese.space" ∨ statsReq.hostname = "thingspeak.com") ∧
    netDown statsReq = none ∧
    ((handleFetch netDown csShell statsReq appOrigin).caches = csShell ∧
     (∀ r, cachesMatch csShell statsReq.url = some r →
       (handleFetch netDown csShell statsReq appOrigin).outcome = .response r) ∧
     (cachesMatch csShell statsReq.url = none →
       (handleFetch netDown csShell statsReq appOrigin).outcome = .failure)) :=
  ⟨rfl, by decide, Or.inl rfl, rfl,
    sw_remote_failure_fallback netDown csShell statsReq appOrigin
      rfl (by decide) (Or.inl rfl) rfl⟩

/-- C4: for a same-origin GET request that misses the cache and whose
network fetch rejects, the listener falls back to a lookup of the root
document "/" — not the originally requested key — returning the cached
root document when present and propagating the failure otherwise. -/
theorem sw_sameOrigin_offline_root_fallback
    (net : Request → Option Response) (cs : CacheStorage) (req : Request)
    (selfOrigin : String)
    (hm : req.method = "GET") (ho : req.origin = selfOrigin)
    (hmiss : cachesMatch cs req.url = none) (hn : net req = none) :
    handleFetch net cs req selfOrigin =
      ⟨match cachesMatch cs "/" with
        | some root => .response root
        | none => .failure, cs, [req], [req.url, "/"]⟩ := by
  cases hroot : cachesMatch cs "/" <;> simp [handleFetch, hm, ho, hmiss, hn, hroot]

theorem sw_sameOrigin_offline_root_fallback_witness :
    pageReq.method = "GET" ∧ pageReq.origin = appOrigin ∧
    cachesMatch csShell pageReq.url = none ∧ netDown pageReq = none ∧
    handleFetch netDown csShell pageReq appOrigin =
      ⟨match cachesMatch csShell "/" with
        | some root => .response root
        | none => .failure, csShell, [pageReq], [pageReq.url, "/"]⟩ :=
  ⟨rfl, rfl, by decide, rfl,
    sw_sameOrigin_offline_root_fallback netDown csShell pageReq appOrigin
      rfl rfl (by decide) rfl⟩

/-- C5: a non-GET request, or a GET request that is neither same-origin
nor addressed to one of the two allow-listed hostnames, passes through
untouched: no cache generation is read or written and no response is
substituted. -/
theorem sw_unmatched_requests_untouched
    (net : Request → Option Response) (cs : CacheStorage) (req : Request)
    (selfOrigin : String)
    (h : req.method ≠ "GET" ∨
      (req.origin ≠ selfOrigin ∧ req.hostname ≠ "batteryapi.liese.space" ∧
        req.hostname ≠ "thingspeak.com")) :
    handleFetch net cs req selfOrigin = ⟨.passthrough, cs, [], []⟩ := by
  rcases h with hm | ⟨ho, h1, h2⟩
  · simp [handleFetch, hm]
  · by_cases hm : req.method = "GET" <;> simp [handleFetch, hm, ho, h1, h2]

theorem sw_unmatched_requests_untouched_witness :
    (postReq.method ≠ "GET" ∨
      (postReq.origin ≠ appOrigin ∧ postReq.hostname ≠ "batteryapi.liese.space" ∧
        postReq.hostname ≠ "thingspeak.com")) ∧
    (foreignReq.method ≠ "GET" ∨
      (foreignReq.origin ≠ appOrigin ∧ foreignReq.hostname ≠ "batteryapi.liese.space" ∧
        foreignReq.hostname ≠ "thingspeak.com")) ∧
    handleFetch netStats csShell postReq appOrigin = ⟨.passthrough, csShell, [], []⟩ ∧
    handleFetch netStats csShell foreignReq appOrigin = ⟨.passthrough, csShell, [], []⟩ :=
  ⟨Or.inl (by decide), Or.inr (by decide),
    sw_unmatched_requests_untouched netStats csShell postReq appOrigin (Or.inl (by decide)),
    sw_unmatched_requests_untouched netStats csShell foreignReq appOrigin
      (Or.inr (by decide))⟩

/-! ### Provenance of cache writes -/

theorem mem_cachePut {c : Cache} {k : String} {r : Response} {e : String × Response}
    (h : e ∈ cachePut c k r) : e ∈ c ∨ e = (k, r) := by
  rcases List.mem_append.1 h with h | h
  · exact Or.inl (List.mem_of_mem_filter h)
  · exact Or.inr (List.mem_singleton.1 h)

theorem mem_putInto {cs : CacheStorage} {name k : String} {r : Response}
    {g' : String × Cache} (h : g' ∈ putInto cs name k r) :
    g' ∈ cs ∨ ∃ g ∈ cs, g' = (g.1, cachePut g.2 k r) := by
  induction cs with
  | nil => simp [putInto] at h
  | cons g rest ih =>
    by_cases hg : g.1 == name
    · simp only [putInto, hg, if_pos] at h
      rcases List.mem_cons.1 h with h | h
      · exact Or.inr ⟨g, List.mem_cons_self .., h⟩
      · exact Or.inl (List.mem_cons_of_mem _ h)
    · simp only [putInto, hg, if_neg, Bool.false_eq_true, not_false_iff] at h
      rcases List.mem_cons.1 h with h | h
      · exact Or.inl (h ▸ List.mem_cons_self ..)
      · rcases ih h with h | ⟨g0, hg0, he⟩
        · exact Or.inl (List.mem_cons_of_mem _ h)
        · exact Or.inr ⟨g0, List.mem_cons_of_mem _ hg0, he⟩

theorem mem_cachesOpen {cs : CacheStorage} {name : String} {g' : String × Cache}
    (h : g' ∈ cachesOpen cs name) : g' ∈ cs ∨ g' = (name, []) := by
  unfold cachesOpen at h
  split at h
  · exact Or.inl h
  · rcases List.mem_append.1 h with h | h
    · exact Or.inl h
    · exact Or.inr (List.mem_singleton.1 h)

/-- Every entry present after `caches.open(name)` followed by a `put`
was either already present or is exactly the snapshot just written. -/
theorem entry_cachesOpenPut {cs : CacheStorage} {name k : String} {r : Response}
    {g' : String × Cache} {e : String × Response}
    (hg : g' ∈ cachesOpenPut cs name k r) (he : e ∈ g'.2) :
    (∃ g ∈ cs, e ∈ g.2) ∨ e = (k, r) := by
  rcases mem_putInto hg with hg' | ⟨g, hgm, hge⟩
  · rcases mem_cachesOpen hg' with hg'' | hg''
    · exact Or.inl ⟨g', hg'', he⟩
    · rw [hg''] at he; simp at he
  · rw [hge] at he
    rcases mem_cachePut he with he' | he'
    · rcases mem_cachesOpen hgm with hgm' | hgm'
      · exact Or.inl ⟨g, hgm', he'⟩
      · rw [hgm'] at he'; simp at he'
    · exact Or.inr he'

/-- Every entry present after a successful `addAll` of the manifest was
either already present or is the verbatim snapshot of a successful, ok
response for one of the manifest urls. -/
theorem entry_addAll {net : String → Option Response} {urls : List String}
    {c c' : Cache} (h : addAll net c urls = some c')
    {e : String × Response} (he : e ∈ c') :
    e ∈ c ∨ (net e.1 = some e.2 ∧ responseOk e.2 = true ∧ e.1 ∈ urls) := by
  induction urls generalizing c with
  | nil =>
    simp only [addAll, Option.some.injEq] at h
    exact Or.inl (h ▸ he)
  | cons u rest ih =>
    unfold addAll at h
    cases hn : net u with
    | none => simp [hn] at h
    | some r =>
      simp only [hn] at h
      by_cases hok : responseOk r = true
      · simp only [hok, if_true] at h
        rcases ih h with h' | ⟨h1, h2, h3⟩
        · rcases mem_cachePut h' with h'' | h''
          · exact Or.inl h''
          · refine Or.inr ⟨?_, ?_, ?_⟩ <;> rw [h'']
            · exact hn
            · exact hok
            · exact List.mem_cons_self ..
        · exact Or.inr ⟨h1, h2, List.mem_cons_of_mem _ h3⟩
      · simp [hok] at h

theorem mem_setGen {cs : CacheStorage} {name : String} {c : Cache}
    {g' : String × Cache} (h : g' ∈ setGen cs name c) :
    g' ∈ cs ∨ g'.2 = c := by
  induction cs with
  | nil => simp [setGen] at h
  | cons g rest ih =>
    by_cases hg : g.1 == name
    · simp only [setGen, hg, if_pos] at h
      rcases List.mem_cons.1 h with h | h
      · exact Or.inr (by rw [h])
      · exact Or.inl (List.mem_cons_of_mem _ h)
    · simp only [setGen, hg, if_neg, Bool.false_eq_true, not_false_iff] at h
      rcases List.mem_cons.1 h with h | h
      · exact Or.inl (h ▸ List.mem_cons_self ..)
      · rcases ih h with h | h
        · exact Or.inl (List.mem_cons_of_mem _ h)
        · exact Or.inr h

/-- Every entry present after a successful install either predates the
install or is a verbatim snapshot of a successful, ok response for a
shell-manifest url. -/
theorem entry_installCaches {net : String → Option Response} {cs cs' : CacheStorage}
    (h : installCaches net cs = some cs')
    {g' : String × Cache} (hg : g' ∈ cs') {e : String × Response} (he : e ∈ g'.2) :
    (∃ g ∈ cs, e ∈ g.2) ∨
      (net e.1 = some e.2 ∧ responseOk e.2 = true ∧ e.1 ∈ APP_SHELL) := by
  unfold installCaches at h
  cases hf : (cachesOpen cs CACHE_VERSION).find? (fun g => g.1 == CACHE_VERSION) with
  | none => simp [hf] at h
  | some g0 =>
    simp only [hf] at h
    cases ha : addAll net g0.2 APP_SHELL with
    | none => simp [ha] at h
    | some c' =>
      simp only [ha, Option.map_some', Option.some.injEq] at h
      rw [← h] at hg
      rcases mem_setGen hg with hg' | hg'
      · rcases mem_cachesOpen hg' with hg'' | hg''
        · exact Or.inl ⟨g', hg'', he⟩
        · rw [hg''] at he; simp at he
      · rw [hg'] at he
        rcases entry_addAll ha he with he' | he'
        · have hg0 : g0 ∈ cachesOpen cs CACHE_VERSION := List.mem_of_find?_eq_some hf
          rcases mem_cachesOpen hg0 with hg0' | hg0'
          · exact Or.inl ⟨g0, hg0', he'⟩
          · rw [hg0'] at he'; simp at he'
        · exact Or.inr he'

/-- The fetch listener either leaves the storage unchanged or writes
exactly the response the network resolved with, into the current
generation under the request's key. -/
theorem handleFetch_caches (net : Request → Option Response) (cs : CacheStorage)
    (req : Request) (selfOrigin : String) :
    (handleFetch net cs req selfOrigin).caches = cs ∨
    ∃ resp, net req = some resp ∧
      (handleFetch net cs req selfOrigin).caches =
        cachesOpenPut cs CACHE_VERSION req.url resp := by
  by_cases hm : req.method = "GET"
  · by_cases ho : req.origin == selfOrigin
    · cases hcm : cachesMatch cs req.url with
      | some cached => simp [handleFetch, hm, ho, hcm]
      | none =>
        cases hn : net req with
        | some resp =>
          right
          exact ⟨resp, rfl, by simp [handleFetch, hm, ho, hcm, hn]⟩
        | none =>
          cases hroot : cachesMatch cs "/" <;>
            simp [handleFetch, hm, ho, hcm, hn, hroot]
    · by_cases hh : (req.hostname == "batteryapi.liese.space" ||
        req.hostname == "thingspeak.com") = true
      · cases hn : net req with
        | some resp =>
          right
          exact ⟨resp, rfl, by simp [handleFetch, hm, ho, hh, hn]⟩
        | none =>
          cases hcm : cachesMatch cs req.url <;>
            simp [handleFetch, hm, ho, hh, hn, hcm]
      · simp [handleFetch, hm, ho, hh]
  · simp [handleFetch, hm]

/-- C6: every entry a fetch-phase refill or an install population writes
into a generation is the whole, verbatim snapshot of a response the
network successfully delivered; when the fetch rejects, nothing is
written, and no entry is ever written partially — any entry found after
either operation predates it or is exactly such a snapshot. -/
theorem sw_writes_are_whole_successful_snapshots
    (net : Request → Option Response) (snet : String → Option Response)
    (cs : CacheStorage) (req : Request) (selfOrigin : String) :
    (∀ g' ∈ (handleFetch net cs req selfOrigin).caches, ∀ e ∈ g'.2,
        (∃ g ∈ cs, e ∈ g.2) ∨ (net req = some e.2 ∧ e.1 = req.url)) ∧
    (∀ cs', installCaches snet cs = some cs' → ∀ g' ∈ cs', ∀ e ∈ g'.2,
        (∃ g ∈ cs, e ∈ g.2) ∨
          (snet e.1 = some e.2 ∧ responseOk e.2 = true ∧ e.1 ∈ APP_SHELL)) := by
  constructor
  · intro g' hg e he
    rcases handleFetch_caches net cs req selfOrigin with hsame | ⟨resp, hn, hw⟩
    · exact Or.inl ⟨g', hsame ▸ hg, he⟩
    · rw [hw] at hg
      rcases entry_cachesOpenPut hg he with h | h
      · exact Or.inl h
      · right
        rw [h]
        exact ⟨hn, rfl⟩
  · intro cs' hi g' hg e he
    exact entry_installCaches hi hg he

/-! ### The activate transition -/

theorem cachesMatch_eq_none {cs : CacheStorage} {k : String}
    (h : ∀ g ∈ cs, cacheLookup g.2 k = none) : cachesMatch cs k = none := by
  induction cs with
  | nil => rfl
  | cons g rest ih =>
    have hg := h g (List.mem_cons_self ..)
    simp [cachesMatch, hg, ih (fun g' hg' => h g' (List.mem_cons_of_mem _ hg'))]

/-- Folding `caches.delete` over a list of names removes exactly the
generations so named. -/
theorem foldl_cachesDelete (L : List String) (cs : CacheStorage) :
    L.foldl cachesDelete cs = cs.filter (fun g => decide (g.1 ∉ L)) := by
  induction L generalizing cs with
  | nil => simp
  | cons a L ih =>
    rw [List.foldl_cons, ih]
    unfold cachesDelete
    rw [List.filter_filter]
    refine List.filter_congr ?_
    intro g _
    by_cases h1 : g.1 = a <;> by_cases h2 : g.1 ∈ L <;> simp [h1, h2]

/-- The activate listener keeps exactly the generations named by the
current version. -/
theorem activateCaches_eq_filter (cs : CacheStorage) :
    activateCaches cs = cs.filter (fun g => g.1 == CACHE_VERSION) := by
  unfold activateCaches
  rw [foldl_cachesDelete]
  refine List.filter_congr ?_
  intro g hg
  have hmem : g.1 ∈ cachesKeys cs := List.mem_map_of_mem _ hg
  by_cases h : g.1 = CACHE_VERSION
  · simp [h, List.mem_filter]
  · simp [h, List.mem_filter, hmem]

/-- After activation the enumerable generation names are exactly the
occurrences of the current version. -/
theorem cachesKeys_activate (cs : CacheStorage) :
    cachesKeys (activateCaches cs) =
      (cachesKeys cs).filter (fun n => n == CACHE_VERSION) := by
  rw [activateCaches_eq_filter]
  unfold cachesKeys
  induction cs with
  | nil => rfl
  | cons g rest ih => by_cases h : g.1 == CACHE_VERSION <;> simp [h, ih]

/-- C9: the activate transition deletes exactly the generations whose
name differs from the current version: afterwards a key that was stored
only in a superseded generation is no longer found, no superseded
generation is enumerable, and every current-version generation is
preserved. -/
theorem sw_activate_purges_stale_generations (cs : CacheStorage) (k : String)
    (h : ∀ c, (CACHE_VERSION, c) ∈ cs → cacheLookup c k = none) :
    cachesMatch (activateCaches cs) k = none ∧
    cachesKeys (activateCaches cs) =
      (cachesKeys cs).filter (fun n => n == CACHE_VERSION) ∧
    ∀ g ∈ cs, g.1 = CACHE_VERSION → g ∈ activateCaches cs := by
  refine ⟨?_, cachesKeys_activate cs, ?_⟩
  · apply cachesMatch_eq_none
    intro g hg
    rw [activateCaches_eq_filter] at hg
    have hmf := List.mem_filter.1 hg
    have hv : g.1 = CACHE_VERSION := by simpa using hmf.2
    refine h g.2 ?_
    rw [← hv, Prod.mk.eta]
    exact hmf.1
  · intro g hg hv
    rw [activateCaches_eq_filter]
    exact List.mem_filter.2 ⟨hg, by simp [hv]⟩

/-- A storage state in which a superseded generation still holds a key
that the current generation lacks. -/
def csSkew : CacheStorage :=
  [("garden-battery-v0", [("/stale", shellResp)]), (CACHE_VERSION, [])]

def staleReq : Request := ⟨"GET", "/stale", appOrigin, "battery.example"⟩

/-- A network that answers every request with a fresh response. -/
def netFresh : Request → Option Response := fun _ => some statsResp

theorem sw_activate_purges_stale_generations_witness :
    (∀ c, (CACHE_VERSION, c) ∈ csSkew → cacheLookup c "/stale" = none) ∧
    (cachesMatch (activateCaches csSkew) "/stale" = none ∧
     cachesKeys (activateCaches csSkew) =
       (cachesKeys csSkew).filter (fun n => n == CACHE_VERSION) ∧
     ∀ g ∈ csSkew, g.1 = CACHE_VERSION → g ∈ activateCaches csSkew) := by
  have hyp : ∀ c, (CACHE_VERSION, c) ∈ csSkew → cacheLookup c "/stale" = none := by
    intro c hc
    rcases List.mem_cons.1 hc with h | h
    · exact absurd (congrArg Prod.fst h)
        (by decide : ¬CACHE_VERSION = "garden-battery-v0")
    · have : c = [] := congrArg Prod.snd (List.mem_singleton.1 h)
      rw [this]; rfl
  exact ⟨hyp, sw_activate_purges_stale_generations csSkew "/stale" hyp⟩

/-! ### C7: what the fetch-phase lookups actually search -/

/-- C7 (counterexample): the fetch-phase lookups are `caches.match`,
which searches every generation, not only the current one.  With the
current generation empty but the superseded generation
"garden-battery-v0" still holding "/stale", the same-origin branch
serves the superseded generation's snapshot — without consulting the
network at all — while a lookup restricted to the current generation
finds nothing.  This refutes the claim that every fetch-phase lookup
searches only the current generation's store. -/
theorem sw_lookup_consults_old_generation :
    handleFetch netFresh csSkew staleReq appOrigin =
      ⟨.response shellResp, csSkew, [], ["/stale"]⟩ ∧
    currentOnlyMatch csSkew "/stale" = none := by
  constructor
  · decide
  · decide

/-- C7 (amended): every fetch-phase lookup goes through the
storage-wide `caches.match`, which searches all existing generations in
creation order rather than only the current one; in the steady state
reached after an activate transition — where, generation names being
distinct, only the current generation survives — the storage-wide
lookup coincides with the current-generation-only lookup. -/
theorem sw_lookup_storage_wide_match (cs : CacheStorage) (k : String)
    (h : (cachesKeys cs).Nodup) :
    cachesMatch (activateCaches cs) k = currentOnlyMatch (activateCaches cs) k := by
  have hall : ∀ g ∈ activateCaches cs, g.1 = CACHE_VERSION := by
    rw [activateCaches_eq_filter]
    intro g hg
    simpa using (List.mem_filter.1 hg).2
  have hnd : (cachesKeys (activateCaches cs)).Nodup := by
    rw [cachesKeys_activate]
    exact h.filter _
  rcases hA : activateCaches cs with _ | ⟨g, _ | ⟨g2, t⟩⟩
  · simp [cachesMatch, currentOnlyMatch, genLookup]
  · have hg1 : g.1 = CACHE_VERSION := hall g (by rw [hA]; exact List.mem_cons_self ..)
    cases hck : cacheLookup g.2 k <;>
      simp [cachesMatch, currentOnlyMatch, genLookup, hg1, hck]
  · exfalso
    have hg1 : g.1 = CACHE_VERSION := hall g (by rw [hA]; exact List.mem_cons_self ..)
    have hg2 : g2.1 = CACHE_VERSION := hall g2
      (by rw [hA]; exact List.mem_cons_of_mem _ (List.mem_cons_self ..))
    rw [hA] at hnd
    simp [cachesKeys, hg1, hg2] at hnd

theorem sw_lookup_storage_wide_match_witness :
    (cachesKeys csSkew).Nodup ∧
    cachesMatch (activateCaches csSkew) "/stale" =
      currentOnlyMatch (activateCaches csSkew) "/stale" :=
  ⟨by decide, sw_lookup_storage_wide_match csSkew "/stale" (by decide)⟩

/-! ### C8: ordering of the lifecycle signals -/

/-- C8 (counterexample): in the install listener's trace the
skip-waiting call comes strictly before the completion of the
shell-manifest population, and in the activate listener's trace —
run on the concrete storage that still holds the superseded generation
"garden-battery-v0" — the clients-claim call comes strictly before that
generation's deletion.  Both signals are issued synchronously by the
listener bodies while `event.waitUntil` merely registers the
asynchronous work, so neither signal waits for its phase's work to
complete, refuting the claim. -/
theorem sw_signals_precede_async_work :
    installTrace.indexOf .skipWaiting < installTrace.indexOf .populateShell ∧
    (activateTrace csSkew).indexOf .claimClients <
      (activateTrace csSkew).indexOf (.deleteGeneration "garden-battery-v0") := by
  constructor
  · decide
  · decide

/-- C8 (amended): the install listener calls skip-waiting synchronously
during event dispatch, strictly before the shell-manifest fetch-and-store
completes (the population still extends the install event's lifetime
through `waitUntil`); likewise the activate listener calls clients-claim
synchronously, strictly before any stale-generation deletion completes —
the deletions it schedules being exactly the generations whose name
differs from the current version. -/
theorem sw_signal_ordering (cs : CacheStorage) :
    installTrace.indexOf .skipWaiting < installTrace.indexOf .populateShell ∧
    (∀ n, (activateTrace cs).indexOf .claimClients <
      (activateTrace cs).indexOf (.deleteGeneration n)) ∧
    (∀ n, LifeAction.deleteGeneration n ∈ activateTrace cs ↔
      n ∈ cachesKeys cs ∧ n ≠ CACHE_VERSION) := by
  refine ⟨by decide, ?_, ?_⟩
  · intro n
    unfold activateTrace
    rw [List.indexOf_cons_self,
      List.indexOf_cons_ne _ (fun h => LifeAction.noConfusion h)]
    exact Nat.succ_pos _
  · intro n
    simp [activateTrace, List.mem_filter]
